import Mathlib

/-!
Verification of the `vg::Counter` storage/indexing layer (`src/counter.cpp`)
against its natural-language specification.

Byte strings are modelled as `List Nat`; `size_t` arithmetic that can go out
of bounds (division by zero, out-of-bounds reads from `size_t` underflow,
reading past the end of a compressed suffix array) is modelled with `Option`:
`none` marks executions the C++ code does not define.
-/

namespace VG

/-- Modelled from the spec: the two reserved marker byte values `delim1`/`delim2`
are declared in `counter.hpp`, which is not part of the provided sources; the
spec (§4.1, §9) says any two distinct byte values are conformant, so concrete
theorems fix `delim1 = 255`. -/
def delim1 : Nat := 255

/-- Modelled from the spec: second reserved marker byte, see `delim1`. -/
def delim2 : Nat := 254

/-- Embedding of `Counter::escape_delim` (counter.cpp:231-239): push every
byte, and push a delimiter byte a second time. -/
def escape_delim (s : List Nat) (d : Nat) : List Nat :=
  match s with
  | [] => []
  | c :: rest => if c = d then c :: c :: escape_delim rest d else c :: escape_delim rest d

/-- Embedding of `Counter::escape_delims` (counter.cpp:223-225): escape
`delim1` first, then `delim2`. -/
def escape_delims (d1 d2 : Nat) (s : List Nat) : List Nat :=
  escape_delim (escape_delim s d1) d2

/-- Loop body of `Counter::unescape_delim` (counter.cpp:243-252) for a
nonempty input: iteration `i` looks at the pair `(s[i], s[i+1])`, pushes
`s[i]` in both branches, and additionally pushes `s[i+1]` at the final
iteration when the pair is not a doubled delimiter.  Note the C++ loop never
skips the second byte of a matched pair. -/
def unescape_loop (d : Nat) : List Nat → List Nat
  | c :: b :: [] => if c = d ∧ b = d then [c] else [c, b]
  | c :: b :: rest => c :: unescape_loop d (b :: rest)
  | _ => []

/-- Embedding of `Counter::unescape_delim` (counter.cpp:241-254).  For the
empty string the C++ loop bound `s.size()-1` underflows (`size_t`), so the
loop reads indices past the end of the string: that undefined execution is
modelled as `none`. -/
def unescape_delim (s : List Nat) (d : Nat) : Option (List Nat) :=
  match s with
  | [] => none
  | _ => some (unescape_loop d s)

/-- Embedding of `Counter::unescape_delims` (counter.cpp:227-229): unescape
`delim1` first, then `delim2`. -/
def unescape_delims (d1 d2 : Nat) (s : List Nat) : Option (List Nat) :=
  (unescape_delim s d1).bind (fun t => unescape_delim t d2)

/-- Modelled from the spec: the byte serialization of the placeholder
`Position` record (external protobuf collaborator, spec §6); its exact shape
is declared source-specific and unspecified (spec §9).  For the concrete
node ids used here (< 128, no marker bytes) a protobuf `Position` with
`node_id = n` serializes as the two bytes `[8, n]`. -/
def protoPos (n : Nat) : List Nat := [8, n]

/-- Embedding of `Counter::pos_key` (counter.cpp:200-209): serialize a
position record for `i + 2`, escape it, and put the `delim1 delim2 delim1`
marker in front. -/
def pos_key (d1 d2 : Nat) (posSer : Nat → List Nat) (i : Nat) : List Nat :=
  d1 :: d2 :: d1 :: escape_delims d1 d2 (posSer (i + 2))

/-- Embedding of `Counter::edit_value` (counter.cpp:211-221) at the byte
level: the argument is the serialized edit record (already strand-normalized),
which is escaped and preceded by a single `delim1` separator. -/
def edit_value (d1 d2 : Nat) (editSer : List Nat) : List Nat :=
  d1 :: escape_delims d1 d2 editSer

/-- Embedding of the boundary-recovery scan of `Counter::edits_at_position`
(counter.cpp:277-287).  `off` is the current offset from the start byte `b`,
`run` the length of the `delim1` run immediately before `off`.  The code
scans byte by byte: a non-delimiter byte after an odd run stops the scan with
`e = off` (one past the run, exactly as `e = f` in the source); after an even
run scanning continues.  Running off the end of the text (past the suffix
array's trailing sentinel) is an out-of-bounds `extract`, modelled `none`. -/
def scan_loop (d1 : Nat) : List Nat → Nat → Nat → Option Nat
  | [], _, _ => none
  | b :: rest, off, run =>
    if b = d1 then scan_loop d1 rest (off + 1) (run + 1)
    else if run % 2 = 1 then some off
    else scan_loop d1 rest (off + 1) 0

/-- Relative end offset computed by the scan starting at the head of `t`
(the byte at offset `b` of the stream), per counter.cpp:274-287. -/
def scan_value_end (d1 : Nat) (t : List Nat) : Option Nat :=
  scan_loop d1 t 0 0

/-- Value recovery of `Counter::edits_at_position` (counter.cpp:288): run the
scan from byte offset `b`, then `extract(csa, b, e)` (sdsl `extract` is
inclusive of both endpoints) and unescape. -/
def value_bytes_at (d1 d2 : Nat) (stream : List Nat) (b : Nat) : Option (List Nat) :=
  match scan_value_end d1 (stream.drop b) with
  | none => none
  | some e => unescape_delims d1 d2 ((stream.drop b).take (e + 1))

/-- All occurrence offsets of `pat` in `t`, in increasing order: the model of
`locate(edit_csa, key)` (counter.cpp:270). -/
def locate_occs (pat t : List Nat) : List Nat :=
  (List.range t.length).filter (fun i => decide ((t.drop i).take pat.length = pat))

/-- Embedding of `Counter::bin_for_position` (counter.cpp:50-56). -/
def bin_for_position (binsz i : Nat) : Nat :=
  if binsz > 0 then i / binsz else 0

/-- Embedding of the `n_bins` computation of the XG constructor
(counter.cpp:9): `n_bins = seq_length / bin_size + 1`, where `bin_size = 0`
is a `size_t` division by zero, modelled `none`. -/
def n_bins_ctor (L binsz : Nat) : Option Nat :=
  if binsz = 0 then none else some (L / binsz + 1)

/-- Embedding of `Counter::edits_at_position` (counter.cpp:264-294) at the
byte level, stopping before the external protobuf parse: position `0`
returns empty at once; otherwise locate every occurrence of `pos_key i` in
the bin's suffix-array text (`csas` holds each bin's file bytes plus the
trailing sentinel `0`), and for each occurrence recover and unescape the
value bytes that follow the key and its `delim1` separator. -/
def edits_bytes_at_position (d1 d2 : Nat) (posSer : Nat → List Nat) (binsz : Nat)
    (csas : List (List Nat)) (i : Nat) : Option (List (List Nat)) :=
  if i = 0 then some []
  else
    let key := pos_key d1 d2 posSer i
    let csa := csas.getD (bin_for_position binsz i) []
    (locate_occs key csa).mapM (fun occ => value_bytes_at d1 d2 csa (occ + key.length + 1))

/-- State of a `Counter` instance: the fields of the class that the claims
observe.  `edit_tmpfiles` holds the byte contents of the per-bin temporary
edit logs (present while `edit_tmpfile_names` is nonempty in the source),
`tmpstreams_open` whether the output streams are open (`tmpfstreams`
nonempty), `edit_csas` each bin's suffix-array text (file bytes plus the
sentinel byte `0` appended by `sdsl::construct`). -/
structure CounterState where
  bin_size : Nat
  n_bins : Nat
  coverage_dynamic : List Nat
  coverage_civ : List Nat
  edit_csas : List (List Nat)
  edit_tmpfiles : List (List Nat)
  tmpstreams_open : Bool
  is_compacted : Bool

/-- Embedding of `Counter::close_edit_tmpfiles` (counter.cpp:136-144): if the
streams are open, append one `delim1` pad byte to every bin's log and close
the streams. -/
def close_edit_tmpfiles (d1 : Nat) (c : CounterState) : CounterState :=
  if c.tmpstreams_open then
    { c with edit_tmpfiles := c.edit_tmpfiles.map (fun f => f ++ [d1]),
             tmpstreams_open := false }
  else c

/-- Embedding of `Counter::make_compact` (counter.cpp:91-111): no-op when
already compacted; otherwise close the logs, copy the dynamic coverage into
the compact vector, build one suffix array per temporary file (text = file
bytes plus sentinel), remove the temporary files, and set the flag. -/
def make_compact (d1 : Nat) (c : CounterState) : CounterState :=
  if c.is_compacted then c
  else
    let c1 := close_edit_tmpfiles d1 c
    { c1 with coverage_civ := c1.coverage_dynamic,
              edit_csas := c1.edit_tmpfiles.map (fun f => f ++ [0]),
              edit_tmpfiles := [],
              is_compacted := true }

/-- Embedding of `Counter::make_dynamic` (counter.cpp:113-118): no-op when
not compacted; on a compacted instance it executes `assert(false)`, a failing
assertion, modelled `none`. -/
def make_dynamic (c : CounterState) : Option CounterState :=
  if c.is_compacted then none else some c

/-- Embedding of `Counter::coverage_at_position` (counter.cpp:260-262):
a direct read of the compact coverage vector. -/
def coverage_at_position (c : CounterState) (i : Nat) : Nat :=
  c.coverage_civ.getD i 0

/-- Embedding of the per-bin body of `Counter::write_edits`
(counter.cpp:64-66): `extract(csa, 0, csa.size()-2)` re-extracts every byte
of the indexed file (the suffix array's size counts the sentinel), and one
`delim1` is appended.  Since the file already ended with the pad written by
`close_edit_tmpfiles`, the output ends with a doubled pad. -/
def write_edits_bin (d1 : Nat) (csa : List Nat) : List Nat :=
  csa.take (csa.length - 1) ++ [d1]

/-- Per-bin edit log of a fresh target after `Counter::merge_from_files`
(counter.cpp:38-48) replayed sources `A` then `B` into it: each source's
bin text is re-extracted and appended by `write_edits`. -/
def merged_bin_log (d1 : Nat) (csaA csaB : List Nat) : List Nat :=
  write_edits_bin d1 csaA ++ write_edits_bin d1 csaB

/-- The merged bin's suffix-array text after the target is compacted: the
merged log, the close pad, and the construction sentinel. -/
def merged_bin_csa (d1 : Nat) (csaA csaB : List Nat) : List Nat :=
  merged_bin_log d1 csaA csaB ++ [d1] ++ [0]

/-- One edit of a mapping as `Counter::add` (counter.cpp:162-185) consumes
it: its `from_length` and whether `edit_is_match` holds. -/
structure MEdit where
  from_length : Nat
  is_match : Bool

/-- One mapping of an alignment path as `Counter::add` consumes it: the
basis position `position_in_basis` returned for it (the coordinate mapper is
an external collaborator, spec §2/§6), its strand, and its edits. -/
structure MMapping where
  pos : Nat
  is_rev : Bool
  edits : List MEdit

/-- Positions incremented for one edit (counter.cpp:163-172): a trivial match
walks `from_length` positions forward (`i+j`) or, on the reverse strand,
backward (`i-j`); other edits increment nothing.  Indices are computed in
`ℤ` so that underflow is visible. -/
def edit_touches (i : Int) (rev : Bool) (e : MEdit) : List Int :=
  if e.is_match then
    (List.range e.from_length).map (fun j => if rev then i - (j : Int) else i + (j : Int))
  else []

/-- Running-position update after one edit (counter.cpp:180-184). -/
def next_pos (i : Int) (rev : Bool) (e : MEdit) : Int :=
  if rev then i - (e.from_length : Int) else i + (e.from_length : Int)

/-- Positions incremented for one mapping, in program order. -/
def mapping_touches (i : Int) (rev : Bool) : List MEdit → List Int
  | [] => []
  | e :: es => edit_touches i rev e ++ mapping_touches (next_pos i rev e) rev es

/-- Positions incremented by a sequence of `add` calls, in program order. -/
def aln_touches (ms : List MMapping) : List Int :=
  (ms.map (fun m => mapping_touches (m.pos : Int) m.is_rev m.edits)).flatten

/-- One `coverage_dynamic.increment(p)`: out-of-range indices (including the
huge values produced by `size_t` underflow on the reverse strand) are
undefined behaviour of the external counter array, modelled `none`. -/
def cov_inc (cov : List Nat) (p : Int) : Option (List Nat) :=
  if 0 ≤ p ∧ p < (cov.length : Int) then
    some (cov.set p.toNat (cov.getD p.toNat 0 + 1))
  else none

/-- Apply a list of increments in order. -/
def apply_incs (cov : List Nat) : List Int → Option (List Nat)
  | [] => some cov
  | p :: ps =>
    match cov_inc cov p with
    | some cov2 => apply_incs cov2 ps
    | none => none

/-- A freshly constructed open `Counter` over a basis of length `L` with its
temporary edit files opened: zeroed dynamic coverage of length `L`
(counter.cpp:8) and one empty log per bin (counter.cpp:120-134). -/
def fresh_counter (L binsz nbins : Nat) : CounterState :=
  { bin_size := binsz, n_bins := nbins,
    coverage_dynamic := List.replicate L 0, coverage_civ := [],
    edit_csas := [], edit_tmpfiles := List.replicate nbins [],
    tmpstreams_open := true, is_compacted := false }

/-- Pipeline for the coverage claim: run the increments of the given `add`
calls on a fresh instance's zeroed dynamic coverage, then `make_compact`. -/
def add_then_compact (d1 L binsz nbins : Nat) (ms : List MMapping) : Option CounterState :=
  match apply_incs (List.replicate L 0) (aln_touches ms) with
  | some cov => some (make_compact d1 { fresh_counter L binsz nbins with coverage_dynamic := cov })
  | none => none

/-- Scanner deciding whether a list contains the three bytes
`d1, d2, d1` consecutively. -/
def hasTriple (d1 d2 : Nat) : List Nat → Bool
  | a :: b :: c :: rest => decide (a = d1 ∧ b = d2 ∧ c = d1) || hasTriple d1 d2 (b :: c :: rest)
  | _ => false

/-- A concrete compacted instance, used to instantiate the state-machine
theorems. -/
def compactedExample : CounterState :=
  { bin_size := 5, n_bins := 3,
    coverage_dynamic := [], coverage_civ := [1, 2],
    edit_csas := [[0]], edit_tmpfiles := [],
    tmpstreams_open := false, is_compacted := true }

/-! ## Theorems -/

/-- Auxiliary: a triple-scanner hit survives consing one byte in front. -/
theorem hasTriple_cons (d1 d2 x : Nat) (L : List Nat) (hL : hasTriple d1 d2 L = true) :
    hasTriple d1 d2 (x :: L) = true := by
  rcases L with _ | ⟨y, _ | ⟨z, w⟩⟩
  · simp [hasTriple] at hL
  · simp [hasTriple] at hL
  · simp [hasTriple, hL]

/-- Auxiliary: if a three-byte pattern is an infix of `t`, the scanner finds
it. -/
theorem hasTriple_of_infix (d1 d2 : Nat) (t : List Nat)
    (h : [d1, d2, d1] <:+: t) : hasTriple d1 d2 t = true := by
  obtain ⟨s, u, rfl⟩ := h
  induction s with
  | nil => simp [hasTriple]
  | cons x s ih => exact hasTriple_cons d1 d2 x _ ih

/-- Auxiliary: `escape_delim` doubles `d`, so whenever its output starts with
`d` the next byte is `d` as well. -/
theorem escape_delim_head_pair (s : List Nat) (d x : Nat) (t : List Nat)
    (h : escape_delim s d = d :: x :: t) : x = d := by
  cases s with
  | nil => simp [escape_delim] at h
  | cons c rest =>
    by_cases hc : c = d
    · rw [escape_delim, if_pos hc] at h
      have h2 := (List.cons.injEq _ _ _ _).mp h
      have h3 := (List.cons.injEq _ _ _ _).mp h2.2
      rw [← h3.1]
      exact hc
    · rw [escape_delim, if_neg hc] at h
      exact absurd ((List.cons.injEq _ _ _ _).mp h).1 hc

/-- Auxiliary: the output of the second escaping pass never contains
`d1 d2 d1` consecutively, because every `d2` it emits sits in a doubled
pair while the pattern needs a `d2` flanked by `d1` on both sides. -/
theorem hasTriple_escape_eq_false (d1 d2 : Nat) (hne : d1 ≠ d2) (s : List Nat) :
    hasTriple d1 d2 (escape_delim s d2) = false := by
  induction s with
  | nil => simp [escape_delim, hasTriple]
  | cons c rest ih =>
    by_cases hc : c = d2
    · have hcd1 : (c = d1) = False := by
        simp only [eq_iff_iff, iff_false]
        exact fun h => hne (h.symm.trans hc)
      rw [escape_delim, if_pos hc]
      rcases hE : escape_delim rest d2 with _ | ⟨y, ys⟩
      · simp [hasTriple]
      · rw [hE] at ih
        rcases ys with _ | ⟨z, zs⟩
        · simp [hasTriple, hcd1]
        · simp [hasTriple, hcd1, ih]
    · rw [escape_delim, if_neg hc]
      rcases hE : escape_delim rest d2 with _ | ⟨y, ys⟩
      · simp [hasTriple]
      · rw [hE] at ih
        rcases ys with _ | ⟨z, zs⟩
        · simp [hasTriple]
        · have hyz : y = d2 → z = d2 := fun hy => by
            have hE2 := hE
            rw [hy] at hE2
            exact escape_delim_head_pair rest d2 z zs hE2
          by_cases hy : y = d2
          · have hz := hyz hy
            have hzd1 : (z = d1) = False := by
              simp only [eq_iff_iff, iff_false]
              exact fun h => hne (h.symm.trans hz)
            simp [hasTriple, ih, hzd1]
          · simp [hasTriple, ih, hy]

/-- Auxiliary: `getD` after `set` at an in-range index. -/
theorem getD_set_eq_ite (l : List Nat) (n v q : Nat) (hn : n < l.length) :
    (l.set n v).getD q 0 = if q = n then v else l.getD q 0 := by
  induction l generalizing n q with
  | nil => simp at hn
  | cons a t ih =>
    cases n with
    | zero =>
      cases q with
      | zero => simp
      | succ q2 => simp
    | succ n2 =>
      cases q with
      | zero => simp
      | succ q2 =>
        have hn2 : n2 < t.length := by simpa using hn
        simp only [List.set_cons_succ, List.getD_cons_succ]
        rw [ih n2 q2 hn2]
        by_cases hq : q2 = n2 <;> simp [hq]

/-- Auxiliary: reading a zero-filled list always yields zero. -/
theorem getD_replicate_zero (L q : Nat) : (List.replicate L (0 : Nat)).getD q 0 = 0 := by
  induction L generalizing q with
  | zero => simp [List.getD]
  | succ n ih =>
    cases q with
    | zero => simp [List.replicate]
    | succ q2 =>
      rw [List.replicate_succ, List.getD_cons_succ]
      exact ih q2

/-- Auxiliary: applying in-range increments succeeds, preserves the length,
and adds to each cell exactly the number of increments aimed at it. -/
theorem apply_incs_spec (ps : List Int) (cov : List Nat)
    (hb : ∀ t ∈ ps, 0 ≤ t ∧ t < (cov.length : Int)) :
    ∃ cov2, apply_incs cov ps = some cov2 ∧ cov2.length = cov.length ∧
      ∀ q, q < cov.length → cov2.getD q 0 = cov.getD q 0 + ps.count ((q : Nat) : Int) := by
  induction ps generalizing cov with
  | nil => exact ⟨cov, rfl, rfl, fun q _ => by simp [apply_incs]⟩
  | cons p ps ih =>
    have hp := hb p (List.mem_cons_self p ps)
    have hptn : p.toNat < cov.length := by omega
    have hinc : cov_inc cov p = some (cov.set p.toNat (cov.getD p.toNat 0 + 1)) := by
      unfold cov_inc
      rw [if_pos ⟨hp.1, hp.2⟩]
    have hlen1 : (cov.set p.toNat (cov.getD p.toNat 0 + 1)).length = cov.length := by simp
    have hb1 : ∀ t ∈ ps, 0 ≤ t ∧ t < ((cov.set p.toNat (cov.getD p.toNat 0 + 1)).length : Int) := by
      intro t ht
      have h := hb t (List.mem_cons_of_mem p ht)
      rw [hlen1]
      exact h
    obtain ⟨cov2, h1, h2, h3⟩ := ih _ hb1
    refine ⟨cov2, ?_, by omega, ?_⟩
    · simp only [apply_incs]
      rw [hinc]
      exact h1
    · intro q hq
      have hq1 : q < (cov.set p.toNat (cov.getD p.toNat 0 + 1)).length := by omega
      rw [h3 q hq1, getD_set_eq_ite cov p.toNat _ q hptn, List.count_cons]
      by_cases hqp : ((q : Nat) : Int) = p
      · have hq2 : q = p.toNat := by omega
        have hbeq : (p == ((q : Nat) : Int)) = true := beq_iff_eq.mpr hqp.symm
        rw [if_pos hq2, ← hq2, hbeq, if_pos rfl]
        omega
      · have hq2 : q ≠ p.toNat := by omega
        have hbeq : (p == ((q : Nat) : Int)) = false := beq_eq_false_iff_ne.mpr (Ne.symm hqp)
        rw [if_neg hq2, hbeq, if_neg Bool.false_ne_true]
        omega

/-- C1: the claimed round-trip law `unescape_delims (escape_delims s) = s`
fails on the code at the spec's own example `s = [M1, M1, M1]`
(three `delim1` bytes): escaping doubles the run to six bytes, but
`unescape_delim` re-reads the second byte of each matched pair, so the run
collapses only to five bytes, not three. -/
theorem roundtrip_fails_on_marker_run :
    unescape_delims delim1 delim2 (escape_delims delim1 delim2 [delim1, delim1, delim1]) =
      some [delim1, delim1, delim1, delim1, delim1] ∧
    some [delim1, delim1, delim1, delim1, delim1] ≠ some [delim1, delim1, delim1] := by
  decide

/-- C10: `unescape_delim` is not total at the public interface: on the empty
string the `size_t` loop bound `s.size()-1` underflows and the loop reads
out of bounds (modelled `none`); consequently `unescape_delims` is undefined
on the empty string, and also on one-byte strings, whose first pass returns
the empty string. -/
theorem unescape_empty_out_of_bounds :
    unescape_delim ([] : List Nat) delim1 = none ∧
    unescape_delims delim1 delim2 [] = none ∧
    unescape_delims delim1 delim2 [7] = none := by
  decide

/-- C2 counterexample: the claim `nBins = binSize > 0 ? ceil(L/binSize) : 1`
is false at `L = 10, binSize = 5`, where the code yields `10/5 + 1 = 3`
while `ceil(10/5) = 2`, and at `binSize = 0`, where the constructor divides
by zero instead of yielding one bin. -/
theorem n_bins_claim_false :
    n_bins_ctor 10 5 ≠ some ((10 + 5 - 1) / 5) ∧ n_bins_ctor 10 0 ≠ some 1 := by
  decide

/-- C2 (amended): for `binSize > 0` the constructor yields
`floor(L/binSize) + 1` bins, which is `ceil(L/binSize)` plus one exactly
when `binSize` divides `L` and `ceil(L/binSize)` otherwise; `binSize = 0` is
a division by zero, not a single-bin special case. -/
theorem n_bins_formula (L b : Nat) (hb : 0 < b) :
    n_bins_ctor L b = some (L / b + 1) ∧
    L / b + 1 = (L + b - 1) / b + (if b ∣ L then 1 else 0) := by
  constructor
  · simp [n_bins_ctor, Nat.pos_iff_ne_zero.mp hb]
  · by_cases hd : b ∣ L
    · obtain ⟨k, rfl⟩ := hd
      have h1 : b * k + b - 1 = b * k + (b - 1) := by omega
      have h3 : (b - 1) / b = 0 := Nat.div_eq_of_lt (by omega)
      rw [if_pos (Dvd.intro k rfl), h1, Nat.mul_add_div hb, Nat.mul_div_cancel_left k hb, h3]
    · have h0 := Nat.div_add_mod L b
      have hr1 : 1 ≤ L % b := Nat.pos_of_ne_zero (fun h => hd (Nat.dvd_of_mod_eq_zero h))
      have hr2 : L % b < b := Nat.mod_lt _ hb
      have hmul : b * (L / b + 1) = b * (L / b) + b := by ring
      have h2 : L + b - 1 = b * (L / b + 1) + (L % b - 1) := by omega
      have h3 : (L % b - 1) / b = 0 := Nat.div_eq_of_lt (by omega)
      rw [if_neg hd, h2, Nat.mul_add_div hb, h3]

/-- C2 witness: the amended formula at `L = 10, b = 3` (not dividing) and the
constructor value `10/3 + 1 = 4 = ceil(10/3)`. -/
theorem n_bins_formula_w :
    n_bins_ctor 10 3 = some (10 / 3 + 1) ∧
    10 / 3 + 1 = (10 + 3 - 1) / 3 + (if 3 ∣ 10 then 1 else 0) :=
  n_bins_formula 10 3 (by decide)

/-- C8: compaction is idempotent: `make_compact` always lands in the
compacted state, and on an already-compacted instance it returns the state
unchanged in every field. -/
theorem make_compact_idem (d1 : Nat) (c : CounterState) :
    make_compact d1 (make_compact d1 c) = make_compact d1 c ∧
    (c.is_compacted = true → make_compact d1 c = c) := by
  have hc : ∀ x : CounterState, x.is_compacted = true → make_compact d1 x = x := by
    intro x hx
    simp [make_compact, hx]
  have hcomp : (make_compact d1 c).is_compacted = true := by
    by_cases h : c.is_compacted
    · rw [hc c h]; exact h
    · simp [make_compact, h]
  exact ⟨hc _ hcomp, hc c⟩

/-- C8 witness: `make_compact` at a concrete compacted instance. -/
theorem make_compact_idem_w :
    make_compact delim1 (make_compact delim1 compactedExample) = make_compact delim1 compactedExample ∧
    make_compact delim1 compactedExample = compactedExample :=
  ⟨(make_compact_idem delim1 compactedExample).1,
   (make_compact_idem delim1 compactedExample).2 rfl⟩

/-- C9: on a compacted instance `make_dynamic` reaches `assert(false)`: it
never silently succeeds or completes as a no-op. -/
theorem make_dynamic_asserts (c : CounterState) (h : c.is_compacted = true) :
    make_dynamic c = none := by
  simp [make_dynamic, h]

/-- C9 witness: `make_dynamic` at a concrete compacted instance. -/
theorem make_dynamic_asserts_w : make_dynamic compactedExample = none :=
  make_dynamic_asserts compactedExample rfl

/-- C3: the boundary-recovery claim fails on the code.  Take the stored value
whose serialized edit bytes are `[7, 255, 9]` (escaped payload
`[7, 255, 255, 9]`, an even embedded `delim1` run) followed by the odd
terminator run `[255]`: the stream for one record is
`key(1) ++ [255] ++ [7,255,255,9] ++ [255]` plus the suffix-array sentinel
`0`, and the value starts at byte offset `b = 6`.  The code's scan returns
`e = e0 + c` (one *past* the odd run, where the claim says `e0 + c - 1` with
the terminator excluded), the inclusive extract therefore keeps the
terminator and the sentinel, and `unescape_delims` leaves the embedded
doubled run uncollapsed: the recovered bytes are `[7,255,255,9,255,0]`, not
the original `[7,255,9]`. -/
theorem boundary_recovery_bug :
    scan_value_end delim1 [7, 255, 255, 9, 255, 0] = some 5 ∧
    value_bytes_at delim1 delim2 [255, 254, 255, 8, 3, 255, 7, 255, 255, 9, 255, 0] 6 =
      some [7, 255, 255, 9, 255, 0] ∧
    some [7, 255, 255, 9, 255, 0] ≠ some ([7, 255, 9] : List Nat) := by
  decide

/-- C4: edit retrieval is not complete.  Store one edit with serialized bytes
`[7]` at position `1` (forward strand, no escaping needed): the closed bin
log is `pos_key 1 ++ edit_value [7] ++ pad`, the suffix-array text appends
the sentinel `0`.  `edits_at_position 1` locates the key but recovers the
value bytes `[7, 255, 0]` — the stored record `[7]` with the terminator pad
and the sentinel glued on — so the record is not returned. -/
theorem edit_retrieval_bug :
    edits_bytes_at_position delim1 delim2 protoPos 0
        [pos_key delim1 delim2 protoPos 1 ++ edit_value delim1 delim2 [7] ++ [255, 0]] 1 =
      some [[7, 255, 0]] ∧
    some [[7, 255, 0]] ≠ some ([[7]] : List (List Nat)) := by
  decide

/-- C7: merging does not preserve the per-position edit multiset.  Source `A`
holds one edit (serialized bytes `[7]`) at position `1`
(suffix-array text `[255,254,255,8,3,255,7,255,0]`); source `B` holds none
(text `[255,0]`).  `write_edits` re-extracts each source's full file
including its old pad and appends another `delim1`, and compacting the
target adds one more pad, so the merged text carries a five-byte `delim1`
run after the value; the target's recovery returns
`[[7,255,255,255,255,255,0]]` while the union of `A`'s and `B`'s recovered
edits is `[[7,255,0]]`. -/
theorem merge_edits_bug :
    edits_bytes_at_position delim1 delim2 protoPos 0
        [merged_bin_csa delim1 [255, 254, 255, 8, 3, 255, 7, 255, 0] [255, 0]] 1 =
      some [[7, 255, 255, 255, 255, 255, 0]] ∧
    edits_bytes_at_position delim1 delim2 protoPos 0 [[255, 254, 255, 8, 3, 255, 7, 255, 0]] 1 =
      some [[7, 255, 0]] ∧
    edits_bytes_at_position delim1 delim2 protoPos 0 [[255, 0]] 1 = some [] ∧
    some [[7, 255, 255, 255, 255, 255, 0]] ≠ some [[7, 255, 0]] := by
  decide

/-- C5: for every payload `p` and distinct marker bytes, `escape_delims p`
never contains the three-byte key marker `delim1 delim2 delim1` as a
substring: the outer escaping pass doubles every `delim2`, so no `delim2`
in the output is flanked by non-`delim2` bytes on both sides, which the
marker would require. -/
theorem escaped_payload_no_key_marker (d1 d2 : Nat) (p : List Nat) (hne : d1 ≠ d2) :
    ¬ [d1, d2, d1] <:+: escape_delims d1 d2 p := by
  intro h
  have h1 := hasTriple_of_infix d1 d2 _ h
  have h2 := hasTriple_escape_eq_false d1 d2 hne (escape_delim p d1)
  simp only [escape_delims] at h1
  rw [h1] at h2
  exact Bool.noConfusion h2

/-- C5 witness: the marker is absent from the escaped form of the payload
that consists of the marker itself. -/
theorem escaped_payload_no_key_marker_w :
    ¬ [delim1, delim2, delim1] <:+: escape_delims delim1 delim2 [delim1, delim2, delim1] :=
  escaped_payload_no_key_marker delim1 delim2 [delim1, delim2, delim1] (by decide)

/-- C6: coverage counting is correct: for any sequence of `add` calls whose
trivial-match segments increment in-bounds positions (walking `i, i+1, ...`
forward and `i, i-1, ...` on the reverse strand), the pipeline succeeds and,
after compaction, `coverage_at_position p` equals the number of increments
applied at `p`. -/
theorem coverage_counts_increments (d1 L binsz nbins : Nat) (ms : List MMapping) (p : Nat)
    (hb : ∀ t ∈ aln_touches ms, 0 ≤ t ∧ t < (L : Int)) (hp : p < L) :
    ∃ st, add_then_compact d1 L binsz nbins ms = some st ∧
      coverage_at_position st p = (aln_touches ms).count ((p : Nat) : Int) := by
  have hb2 : ∀ t ∈ aln_touches ms, 0 ≤ t ∧ t < ((List.replicate L (0 : Nat)).length : Int) := by
    simpa using hb
  obtain ⟨cov2, h1, h2, h3⟩ := apply_incs_spec (aln_touches ms) (List.replicate L 0) hb2
  have hpipe : add_then_compact d1 L binsz nbins ms =
      some (make_compact d1 { fresh_counter L binsz nbins with coverage_dynamic := cov2 }) := by
    unfold add_then_compact
    rw [h1]
  refine ⟨_, hpipe, ?_⟩
  have hciv : (make_compact d1
      { fresh_counter L binsz nbins with coverage_dynamic := cov2 }).coverage_civ = cov2 := by
    simp [make_compact, close_edit_tmpfiles, fresh_counter]
  have hplen : p < (List.replicate L (0 : Nat)).length := by simpa using hp
  rw [coverage_at_position, hciv, h3 p hplen, getD_replicate_zero]
  simp

/-- C6 witness: the spec §8 scenario: a single trivial match of length 3
starting at position 3, on a basis of length 10 with bin size 5, queried at
position 4. -/
theorem coverage_counts_increments_w :
    ∃ st, add_then_compact 255 10 5 3 [⟨3, false, [⟨3, true⟩]⟩] = some st ∧
      coverage_at_position st 4 = (aln_touches [⟨3, false, [⟨3, true⟩]⟩]).count ((4 : Nat) : Int) :=
  coverage_counts_increments 255 10 5 3 [⟨3, false, [⟨3, true⟩]⟩] 4 (by decide) (by decide)

end VG
